import Mathlib

/-!
# Verification of `backend/blocks/basic.py` (AutoGPT basic blocks)

Shallow embedding of the block execution routines in
`src/autogpt_platform/backend/backend/blocks/basic.py` and proofs about them.

Python values flowing through the blocks are modelled by the inductive type
`Value` (JSON-like data plus an `obj` constructor carrying the attribute
dictionary of a duck-typed object; attribute access — Python's
`hasattr`/`getattr` — is modelled on that constructor only).
Dictionary keys accepted by the blocks are `str | int`, modelled by `Key`.
External collaborators (`json.loads`, `convert`) are parameters of the
embedded routines.  A routine that can raise is embedded in
`Except String`; an uncaught exception is `.error`, and `.error` means the
generator produced no events.  Event streams are `List (String × Value)`.
-/

/-- A Python dictionary key as accepted by the basic blocks: `str | int`. -/
inductive Key where
  | str (s : String)
  | int (n : Int)
deriving DecidableEq, Repr

/-- A Python runtime value, restricted to the JSON-like shapes the blocks
manipulate, plus `obj` for an arbitrary object exposing named attributes.
`dict` is the insertion-ordered association list of a Python `dict`. -/
inductive Value where
  | null
  | bool (b : Bool)
  | int (n : Int)
  | str (s : String)
  | list (xs : List Value)
  | dict (ps : List (Key × Value))
  | obj (attrs : List (String × Value))
deriving Repr

mutual

/-- Python `==` on the modelled values: structural on containers, with the
numeric crossing `True == 1`, `False == 0`.  (Default object equality is
modelled structurally on the attribute record.) -/
def pyEq : Value → Value → Bool
  | .null, .null => true
  | .bool a, .bool b => a == b
  | .bool a, .int n => (if a then (1 : Int) else 0) == n
  | .int n, .bool b => n == (if b then (1 : Int) else 0)
  | .int a, .int b => a == b
  | .str a, .str b => a == b
  | .list xs, .list ys => pyEqList xs ys
  | .dict ps, .dict qs => pyEqPairs ps qs
  | .obj ps, .obj qs => pyEqAttrs ps qs
  | _, _ => false

/-- Elementwise `pyEq` on lists. -/
def pyEqList : List Value → List Value → Bool
  | [], [] => true
  | x :: xs, y :: ys => pyEq x y && pyEqList xs ys
  | _, _ => false

/-- Pairwise `pyEq` on dictionary entry lists. -/
def pyEqPairs : List (Key × Value) → List (Key × Value) → Bool
  | [], [] => true
  | (k, v) :: ps, (k', v') :: qs => k == k' && pyEq v v' && pyEqPairs ps qs
  | _, _ => false

/-- Pairwise `pyEq` on attribute lists. -/
def pyEqAttrs : List (String × Value) → List (String × Value) → Bool
  | [], [] => true
  | (a, v) :: ps, (a', v') :: qs => a == a' && pyEq v v' && pyEqAttrs ps qs
  | _, _ => false

end

/-- The `Key` seen as a `Value` (used when a key is compared against
sequence elements by Python's `in`). -/
def Key.toValue : Key → Value
  | .str s => .str s
  | .int n => .int n

/-- Python truthiness (`bool(v)`) on the modelled values: `None`, `False`,
`0`, `""`, `[]` and `{}` are falsy; a plain object is truthy. -/
def pyTruthy : Value → Bool
  | .null => false
  | .bool b => b
  | .int n => n ≠ 0
  | .str s => s ≠ ""
  | .list xs => ¬ xs.isEmpty
  | .dict ps => ¬ ps.isEmpty
  | .obj _ => true

/-- Python `v is None` (here `None` is modelled by exactly `Value.null`). -/
def Value.isNull : Value → Bool
  | .null => true
  | _ => false

/-- One emitted output event: `(field_name, value)`. -/
abbrev Event := String × Value

/-- Python `key in d` on a dictionary's entry list. -/
def dictContains (ps : List (Key × Value)) (k : Key) : Bool :=
  ps.any (fun p => p.1 == k)

/-- Python `d[key]` on a dictionary's entry list (first matching entry; a
real Python dict has unique keys).  Defaults to `None` — callers guard
presence with `dictContains`. -/
def dictGetD (ps : List (Key × Value)) (k : Key) : Value :=
  ((ps.find? (fun p => p.1 == k)).map Prod.snd).getD .null

/-- Python `hasattr(v, a)`: attribute probing, modelled on the `obj`
constructor only (built-in method namespaces of `dict`/`list`/`str`/`int`
are not data and are not modelled). -/
def hasattrV (v : Value) (a : String) : Bool :=
  match v with
  | .obj attrs => attrs.any (fun p => p.1 == a)
  | _ => false

/-- Python `getattr(v, a)` (guarded by `hasattrV`). -/
def getattrV (v : Value) (a : String) : Value :=
  match v with
  | .obj attrs => ((attrs.find? (fun p => p.1 == a)).map Prod.snd).getD .null
  | _ => .null

/-- Python membership `k in item` for an arbitrary value `item`:
dictionaries test key containment, lists test element equality (`==`),
strings test substring (for a textual key; an integer key raises), and all
other values raise `TypeError` (no `__contains__`, not iterable). -/
def pyIn (k : Key) (item : Value) : Except String Bool :=
  match item with
  | .dict ps => .ok (dictContains ps k)
  | .list xs => .ok (xs.any (fun x => pyEq x k.toValue))
  | .str s =>
    match k with
    | .str ks => .ok (decide (ks.data <:+: s.data))
    | .int _ => .error "TypeError"
  | _ => .error "TypeError"

/-- Python subscription `item[k]` for a string key `k`: dictionaries look
the key up (`KeyError` when absent); lists and strings require integer
indices and raise `TypeError`, as does everything else. -/
def pyGetItem (item : Value) (ks : String) : Except String Value :=
  match item with
  | .dict ps =>
    match ps.find? (fun p => p.1 == Key.str ks) with
    | some p => .ok p.2
    | none => .error "KeyError"
  | _ => .error "TypeError"

namespace FindInDictionaryBlock

/-- The comprehension `[item[key] for item in obj if key in item]`,
evaluated left to right; the first raising membership test or subscription
aborts the whole comprehension. -/
def dictProjection (ks : String) : List Value → Except String (List Value)
  | [] => .ok []
  | item :: rest =>
    match pyIn (Key.str ks) item with
    | .error e => .error e
    | .ok false => dictProjection ks rest
    | .ok true =>
      match pyGetItem item ks with
      | .error e => .error e
      | .ok v =>
        match dictProjection ks rest with
        | .error e => .error e
        | .ok vs => .ok (v :: vs)

/-- The comprehension `[getattr(val, key) for val in obj if hasattr(val, key)]`
(never raises). -/
def attrProjection (ks : String) (xs : List Value) : List Value :=
  (xs.filter (fun v => hasattrV v ks)).map (fun v => getattrV v ks)

/-- Condition `isinstance(obj, dict) and key in obj`. -/
def condDict (obj : Value) (key : Key) : Bool :=
  match obj with
  | .dict ps => dictContains ps key
  | _ => false

/-- Condition `isinstance(obj, list) and isinstance(key, int) and 0 <= key < len(obj)`. -/
def condListInt (obj : Value) (key : Key) : Bool :=
  match obj, key with
  | .list xs, .int n => decide (0 ≤ n) && decide (n < xs.length)
  | _, _ => false

/-- Subscription `obj[key]` in the dictionary branch. -/
def dictItemV (obj : Value) (key : Key) : Value :=
  match obj with
  | .dict ps => dictGetD ps key
  | _ => .null

/-- Subscription `obj[key]` in the in-bounds list-index branch. -/
def listItemV (obj : Value) (key : Key) : Value :=
  match obj, key with
  | .list xs, .int n => xs.getD n.toNat .null
  | _, _ => .null

/-- The `isinstance(obj, list) and isinstance(key, str)` branch body. -/
def listStrLookup (xs : List Value) (ks : String) : Except String Value :=
  if xs.isEmpty then .ok (.list [])
  else if condDict (xs.headD .null) (.str ks) then
    match dictProjection ks xs with
    | .error e => .error e
    | .ok vs => .ok (.list vs)
  else .ok (.list (attrProjection ks xs))

/-- The parse preamble `if isinstance(obj, str): obj = json.loads(obj)`;
`loads` is the external JSON parser. -/
def parsedObj (loads : String → Except String Value) (input : Value) :
    Except String Value :=
  match input with
  | .str s => loads s
  | _ => .ok input

/-- The `if`/`elif` chain of `FindInDictionaryBlock.run` after parsing.
`input` is the original (unparsed) input, yielded on `missing`. -/
def runObj (input obj : Value) (key : Key) : Except String (List Event) :=
  if condDict obj key then .ok [("output", dictItemV obj key)]
  else if condListInt obj key then .ok [("output", listItemV obj key)]
  else
    match obj, key with
    | .list xs, .str ks =>
      match listStrLookup xs ks with
      | .error e => .error e
      | .ok v => .ok [("output", v)]
    | _, _ =>
      match key with
      | .str ks =>
        if hasattrV obj ks then .ok [("output", getattrV obj ks)]
        else .ok [("missing", input)]
      | .int _ => .ok [("missing", input)]

/-- Routine `FindInDictionaryBlock.run`: parse a textual input with the external
JSON parser (an uncaught parse failure propagates), then resolve the key
by the `if`/`elif` chain. -/
def run (loads : String → Except String Value) (input : Value) (key : Key) :
    Except String (List Event) :=
  match parsedObj loads input with
  | .error e => .error e
  | .ok obj => runObj input obj key

end FindInDictionaryBlock

/-! Spec-side model of the dictionary-lookup resolution (§4.5 of the spec,
with the projection behaviour as amended): a first-match-wins priority list
of rules, each returning `none` when it does not apply. -/

namespace DictionaryLookupSpec

/-- Rule 1: the input is a mapping and the key is a present key. -/
def ruleMapping (obj : Value) (key : Key) : Option Value :=
  match obj with
  | .dict ps => (ps.find? (fun p => p.1 == key)).map Prod.snd
  | _ => none

/-- Rule 2: the input is a sequence and the key is an in-bounds
(non-negative) integer index. -/
def ruleSequenceIndex (obj : Value) (key : Key) : Option Value :=
  match obj, key with
  | .list xs, .int n => if 0 ≤ n then xs[n.toNat]? else none
  | _, _ => none

/-- One element's contribution to the spec-side projection: test
membership of the key, subscript when it is contained, skip otherwise. -/
def pick (ks : String) (item : Value) : Except String (Option Value) := do
  let m ← pyIn (Key.str ks) item
  if m then do
    let v ← pyGetItem item ks
    pure (some v)
  else
    pure none

/-- The projection of a textual key over a sequence, spec-side: test
membership of the key in each element from left to right, subscript the
elements that contain it, and keep the successful subscriptions in order;
the first raising membership test or subscription aborts. -/
def projection (ks : String) (xs : List Value) : Except String (List Value) := do
  let picked ← xs.mapM (pick ks)
  pure (picked.filterMap id)

/-- The spec-side attribute projection: the key attribute read from every
element that exposes it, in order. -/
def attrProject (ks : String) (xs : List Value) : List Value :=
  xs.filterMap (fun v => if hasattrV v ks then some (getattrV v ks) else none)

/-- Rule 3: the input is a sequence and the key is textual.  An empty
sequence yields the empty sequence; when the first element is a mapping
containing the key, the (fallible) projection; otherwise the attribute
projection. -/
def ruleSequenceText (obj : Value) (key : Key) :
    Option (Except String Value) :=
  match obj, key with
  | .list xs, .str ks =>
    some (match xs with
      | [] => .ok (.list [])
      | first :: _ =>
        if (ruleMapping first key).isSome then
          (projection ks xs).map Value.list
        else .ok (.list (attrProject ks xs)))
  | _, _ => none

/-- Rule 4: an arbitrary object exposing an attribute named by the textual key. -/
def ruleAttribute (obj : Value) (key : Key) : Option Value :=
  match key with
  | .str ks => if hasattrV obj ks then some (getattrV obj ks) else none
  | .int _ => none

/-- First-match-wins resolution over the four rules; when no rule applies,
emit `missing` carrying the original unparsed input. -/
def resolve (input obj : Value) (key : Key) : Except String (List Event) :=
  match ruleMapping obj key with
  | some v => .ok [("output", v)]
  | none =>
    match ruleSequenceIndex obj key with
    | some v => .ok [("output", v)]
    | none =>
      match ruleSequenceText obj key with
      | some (.ok v) => .ok [("output", v)]
      | some (.error e) => .error e
      | none =>
        match ruleAttribute obj key with
        | some v => .ok [("output", v)]
        | none => .ok [("missing", input)]

/-- The spec-side lookup routine: parse a textual input, then resolve. -/
def run (loads : String → Except String Value) (input : Value) (key : Key) :
    Except String (List Event) :=
  match FindInDictionaryBlock.parsedObj loads input with
  | .error e => .error e
  | .ok obj => resolve input obj key

end DictionaryLookupSpec

namespace AddToDictionaryBlock

/-- Python `d[k] = v` on the insertion-ordered entry list: overwrite in
place when the key is present (keeping its position), append otherwise. -/
def dictSet (ps : List (Key × Value)) (k : Key) (v : Value) :
    List (Key × Value) :=
  if ps.any (fun p => p.1 == k) then
    ps.map (fun p => if p.1 == k then (k, v) else p)
  else ps ++ [(k, v)]

/-- Routine `AddToDictionaryBlock.run`: `updated_dict = input_data.dictionary.copy()`
(the copy is the identity in this pure model; aliasing is treated by the
heap model below); `if input_data.value is not None and input_data.key:`
set the singular pair (`input_data.key` is a string, truthy iff
non-empty); then `for key, value in input_data.entries.items():` set each
batch entry in order; yield the result on `updated_dictionary`. -/
def run (dictionary : List (Key × Value)) (key : String) (value : Value)
    (entries : List (Key × Value)) : List Event :=
  let afterSingle :=
    if !value.isNull && key != "" then dictSet dictionary (.str key) value
    else dictionary
  [("updated_dictionary",
    Value.dict (entries.foldl (fun d p => dictSet d p.1 p.2) afterSingle))]

end AddToDictionaryBlock

namespace AddToListBlock

/-- Python slice-boundary resolution for `l[:i]` and `l[i:]`: a negative
index counts from the end, and the result is clamped to `[0, len]`. -/
def sliceIndex (n : Int) (len : Nat) : Nat :=
  if n < 0 then (n + len).toNat else min n.toNat len

/-- Routine `AddToListBlock.run`: `entries_added = input_data.entries.copy()`;
`if input_data.entry:` (truthiness!) append the single entry;
`updated_list = input_data.list.copy()`; when `position` is given splice
via `updated_list[:pos] + entries_added + updated_list[pos:]`, else
`updated_list += entries_added`; yield on `updated_list`. -/
def run (list : List Value) (entry : Value) (entries : List Value)
    (position : Option Int) : List Event :=
  let entries_added := entries ++ (if pyTruthy entry then [entry] else [])
  let updated :=
    match position with
    | some pos =>
      let i := sliceIndex pos list.length
      list.take i ++ entries_added ++ list.drop i
    | none => list ++ entries_added
  [("updated_list", Value.list updated)]

end AddToListBlock

namespace FindInListBlock

/-- Python `list.index(value)`: linear search for the first element
`== value`, raising `ValueError` when there is none. -/
def pyListIndex (l : List Value) (v : Value) : Except String Nat :=
  match l with
  | [] => .error "ValueError"
  | x :: xs => if pyEq x v then .ok 0 else (pyListIndex xs v).map (· + 1)

/-- Routine `FindInListBlock.run`: `try` `list.index`; on success yield `index`
then `found=True`; on `ValueError` yield `found=False` then
`not_found_value`. -/
def run (l : List Value) (v : Value) : List Event :=
  match pyListIndex l v with
  | .ok i => [("index", .int i), ("found", .bool true)]
  | .error _ => [("found", .bool false), ("not_found_value", v)]

end FindInListBlock

namespace CreateListBlock

/-- The message reported when `range()` rejects a zero step, wrapped by the
block's `except` handler. -/
def errMsg : String := "Failed to create list: range() arg 3 must not be zero"

/-- The expression `input_data.max_size or len(input_data.values)` —
Python `or`: `None` and `0` are falsy and fall back to the length. -/
def effSize (values : List Value) (max_size : Option Int) : Int :=
  match max_size with
  | none => (values.length : Int)
  | some m => if m = 0 then (values.length : Int) else m

/-- Routine `CreateListBlock.run`: `max_size = input_data.max_size or len(values)`,
then `for i in range(0, len(values), max_size): yield "list", values[i : i + max_size]`.
A zero step makes `range` raise `ValueError`, which the surrounding `try`
catches and reports on `error`; a negative step yields an empty `range`
(no events); a positive step `k` runs the loop `⌈len/k⌉` times with
`i = j * k`. -/
def run (values : List Value) (max_size : Option Int) : List Event :=
  if effSize values max_size = 0 then [("error", .str errMsg)]
  else if effSize values max_size < 0 then []
  else
    (List.range
        ((values.length + (effSize values max_size).toNat - 1)
          / (effSize values max_size).toNat)).map
      (fun j => ("list", Value.list
        ((values.drop (j * (effSize values max_size).toNat)).take
          (effSize values max_size).toNat)))

end CreateListBlock

/-- The Python target types appearing in the converter's dispatch dict. -/
inductive PyType where
  | str | float | bool | list | dict
deriving DecidableEq, Repr

/-- The `TypeOptions` enum of `basic.py`. -/
inductive TypeOptions where
  | STRING | NUMBER | BOOLEAN | LIST | DICTIONARY
deriving DecidableEq, Repr

namespace UniversalTypeConverterBlock

/-- The literal dispatch dict `{TypeOptions.STRING: str, ...}` subscripted
at `input_data.type` — total, every enum member is a key, so the
subscription itself cannot raise. -/
def targetType : TypeOptions → PyType
  | .STRING => .str
  | .NUMBER => .float
  | .BOOLEAN => .bool
  | .LIST => .list
  | .DICTIONARY => .dict

/-- The field names declared by `UniversalTypeConverterBlock.Output`:
only `value`. -/
def outputFields : List String := ["value"]

/-- Routine `UniversalTypeConverterBlock.run`, parametrised by the external
`convert` collaborator (`backend.util.type.convert`), modelled as a
fallible function.  The `try`/`except Exception` catches any failure and
reports it on an `error` field. -/
def run (convert : Value → PyType → Except String Value)
    (value : Value) (ty : TypeOptions) : List Event :=
  match convert value (targetType ty) with
  | .ok c => [("value", c)]
  | .error e => [("error", .str ("Failed to convert value: " ++ e))]

end UniversalTypeConverterBlock

/-! Heap model for the copy-before-mutate discipline.  The pure embeddings
above cannot express aliasing, so the two mutating routines are replayed
over an explicit heap of container objects: an address is an index into the
heap, `alloc` appends (fresh addresses), `.copy()` allocates a new cell
with the same contents, and in-place mutation (`d[k] = v`, `.append`,
`+=`) writes through an address. -/

/-- A top-level Python container object living on the heap. -/
inductive Container where
  | dict (ps : List (Key × Value))
  | list (xs : List Value)
deriving Repr

/-- A heap of container objects, addressed by position. -/
abbrev Heap := List Container

/-- Allocate a fresh container; the address is the old heap length. -/
def Heap.alloc (h : Heap) (c : Container) : Heap × Nat :=
  (h ++ [c], h.length)

/-- Read a dictionary through an address (defaulting when ill-typed;
theorems restrict to valid addresses). -/
def Heap.dictAt (h : Heap) (a : Nat) : List (Key × Value) :=
  match h.getD a (.dict []) with
  | .dict ps => ps
  | .list _ => []

/-- Read a list through an address. -/
def Heap.listAt (h : Heap) (a : Nat) : List Value :=
  match h.getD a (.list []) with
  | .list xs => xs
  | .dict _ => []

/-- Overwrite the dictionary at an address (in-place mutation). -/
def Heap.writeDict (h : Heap) (a : Nat) (ps : List (Key × Value)) : Heap :=
  h.set a (.dict ps)

/-- Overwrite the list at an address (in-place mutation). -/
def Heap.writeList (h : Heap) (a : Nat) (xs : List Value) : Heap :=
  h.set a (.list xs)

namespace AddToDictionaryBlock

/-- Routine `AddToDictionaryBlock.run` over the heap: `updated_dict` is a fresh
copy of the dictionary at `dictA`; the singular pair and then the batch
entries (read from `entriesA`) are written through the copy's address.
Returns the final heap and the address of the emitted dictionary. -/
def runH (h : Heap) (dictA : Nat) (key : String) (value : Value)
    (entriesA : Nat) : Heap × Nat :=
  let p1 := h.alloc (.dict (h.dictAt dictA))
  let h1 := p1.1
  let copyA := p1.2
  let h2 :=
    if !value.isNull && key != "" then
      h1.writeDict copyA (dictSet (h1.dictAt copyA) (.str key) value)
    else h1
  let h3 := (h2.dictAt entriesA).foldl
    (fun hh p => hh.writeDict copyA (dictSet (hh.dictAt copyA) p.1 p.2)) h2
  (h3, copyA)

end AddToDictionaryBlock

namespace AddToListBlock

/-- Routine `AddToListBlock.run` over the heap: `entries_added` is a fresh copy of
the list at `entriesA`, mutated by `.append` when the single entry is
truthy; `updated_list` is a fresh copy of the list at `listA`; with a
`position` the splice expression builds a further fresh list, without one
`+=` mutates the copy in place.  Returns the final heap and the address of
the emitted list. -/
def runH (h : Heap) (listA : Nat) (entry : Value) (entriesA : Nat)
    (position : Option Int) : Heap × Nat :=
  let p1 := h.alloc (.list (h.listAt entriesA))
  let h1 := p1.1
  let batchA := p1.2
  let h2 :=
    if pyTruthy entry then h1.writeList batchA (h1.listAt batchA ++ [entry])
    else h1
  let p2 := h2.alloc (.list (h2.listAt listA))
  let h3 := p2.1
  let copyA := p2.2
  match position with
  | some pos =>
    let xs := h3.listAt copyA
    let i := sliceIndex pos xs.length
    let p3 := h3.alloc (.list (xs.take i ++ h3.listAt batchA ++ xs.drop i))
    (p3.1, p3.2)
  | none =>
    (h3.writeList copyA (h3.listAt copyA ++ h3.listAt batchA), copyA)

end AddToListBlock

namespace StoreValueBlock

/-- Routine `StoreValueBlock.run`: `yield "output", input_data.data or input_data.input`.
Python `a or b` evaluates to `a` when `a` is truthy and to `b` otherwise. -/
def run (input data : Value) : List Event :=
  [("output", if pyTruthy data then data else input)]

end StoreValueBlock

/-! Spec-side formulations used by the claims. -/

namespace ListInsertSpec

/-- The combined batch of §4.7 (as amended): a copy of `entries` with the
single `entry` appended exactly when it is truthy. -/
def batch (entry : Value) (entries : List Value) : List Value :=
  entries ++ (if pyTruthy entry then [entry] else [])

/-- Splice `b` into `l` at (Python-resolved) slice position `p`; append to
the end when the position is absent. -/
def insert (l b : List Value) : Option Int → List Value
  | some p =>
    l.take (AddToListBlock.sliceIndex p l.length) ++ b
      ++ l.drop (AddToListBlock.sliceIndex p l.length)
  | none => l ++ b

end ListInsertSpec

/-- Python `d[k]` as a partial read on the entry list (used to state
last-write-wins for the merge block). -/
def dictLookup (ps : List (Key × Value)) (k : Key) : Option Value :=
  (ps.find? (fun p => p.1 == k)).map Prod.snd

namespace DictionaryMergeSpec

/-- The merged dictionary of §4.6: start from a copy of `dictionary`, set
the singular pair when `value` is non-null and `key` non-empty, then apply
every batch entry in order, each overwriting any same-named key. -/
def merged (d : List (Key × Value)) (k : String) (v : Value)
    (es : List (Key × Value)) : List (Key × Value) :=
  es.foldl (fun acc p => AddToDictionaryBlock.dictSet acc p.1 p.2)
    (if !v.isNull && k != "" then AddToDictionaryBlock.dictSet d (.str k) v else d)

end DictionaryMergeSpec

namespace ListCreateSpec

/-- Consecutive chunks of length `k` (the last possibly shorter), spec-side
(§4.7 create-from-values). -/
def chunks (k : Nat) : List Value → List (List Value)
  | [] => []
  | x :: xs => (x :: xs).take k :: chunks k (xs.drop (k - 1))
termination_by l => l.length
decreasing_by simp; omega

end ListCreateSpec

/-! ## Theorems -/

/-- C3 counterexample: `data = 0` is non-null, yet `StoreValueBlock` emits
`input`, not `data` — Python `or` tests truthiness, not `is None`. -/
theorem storeValue_nonnull_refuted :
    StoreValueBlock.run (Value.str "x") (Value.int 0)
        = [("output", Value.str "x")]
      ∧ Value.int 0 ≠ Value.null
      ∧ Value.str "x" ≠ Value.int 0 := by
  refine ⟨rfl, by simp, by simp⟩

/-- C3 (amended): `StoreValueBlock.run` emits exactly one `output` event,
carrying `data` when `data` is truthy and `input` otherwise. -/
theorem storeValue_output (input data : Value) :
    StoreValueBlock.run input data
      = [("output", if pyTruthy data then data else input)] := rfl

/-- C4 counterexample: `entry = 0` is non-null, yet `AddToListBlock` does
not append it — `if input_data.entry:` tests truthiness. -/
theorem addToList_nonnull_refuted :
    AddToListBlock.run [Value.str "a"] (Value.int 0) [] none
        = [("updated_list", Value.list [Value.str "a"])]
      ∧ Value.int 0 ≠ Value.null
      ∧ Value.list [Value.str "a"] ≠ Value.list [Value.str "a", Value.int 0] := by
  refine ⟨rfl, by simp, by simp⟩

/-- C4 (amended): `AddToListBlock.run` emits exactly one `updated_list`
event whose value is the combined batch — `entries` with `entry` appended
exactly when `entry` is truthy — spliced into `list` at the
(Python-slice-resolved) `position` when given, and appended at the end
when absent. -/
theorem addToList_insert (list : List Value) (entry : Value)
    (entries : List Value) (position : Option Int) :
    AddToListBlock.run list entry entries position
      = [("updated_list",
          Value.list (ListInsertSpec.insert list
            (ListInsertSpec.batch entry entries) position))] := by
  cases position <;> rfl

/-- Search lemma: `pyListIndex` succeeds with the index of the first
element `== v` exactly when some element is `== v`. -/
theorem pyListIndex_eq (l : List Value) (v : Value) :
    FindInListBlock.pyListIndex l v
      = if l.any (fun x => pyEq x v) then
          .ok (l.findIdx (fun x => pyEq x v))
        else .error "ValueError" := by
  induction l with
  | nil => rfl
  | cons x xs ih =>
    simp only [FindInListBlock.pyListIndex, List.any_cons, List.findIdx_cons]
    cases hx : pyEq x v with
    | true => simp
    | false =>
      simp only [Bool.false_or, cond_false, ih]
      cases hxs : xs.any (fun x => pyEq x v) <;> simp [Except.map]

/-- C8: `FindInListBlock.run` does not raise; when some element of `list`
equals `value` it emits exactly `index` (position of the first equal
element) then `found=true`, otherwise exactly `found=false` then
`not_found_value=value`. -/
theorem findInList_search (l : List Value) (v : Value) :
    FindInListBlock.run l v
      = if l.any (fun x => pyEq x v) then
          [("index", Value.int (l.findIdx (fun x => pyEq x v))),
           ("found", Value.bool true)]
        else [("found", Value.bool false), ("not_found_value", v)] := by
  unfold FindInListBlock.run
  rw [pyListIndex_eq]
  cases hl : l.any (fun x => pyEq x v) <;> simp

/-- C9: the converter's `try`/`except` wrapper — whatever the external
`convert` collaborator does, the routine emits exactly one event: the
converted value on `value` on success, a descriptive message on `error` on
failure (the exception never propagates). -/
theorem converter_error_handling
    (convert : Value → PyType → Except String Value) (value : Value)
    (ty : TypeOptions) :
    (UniversalTypeConverterBlock.run convert value ty).length = 1
      ∧ UniversalTypeConverterBlock.run convert value ty
          = (match convert value (UniversalTypeConverterBlock.targetType ty) with
             | .ok c => [("value", c)]
             | .error e =>
                 [("error", Value.str ("Failed to convert value: " ++ e))]) := by
  constructor
  · unfold UniversalTypeConverterBlock.run
    cases convert value (UniversalTypeConverterBlock.targetType ty) <;> rfl
  · rfl

/-- C2 (code bug): on a failing coercion the converter emits an event on
field `error`, but its Output schema declares only `value` — the emission
contract is violated by `UniversalTypeConverterBlock`. -/
theorem converter_undeclared_error_field :
    ((UniversalTypeConverterBlock.run (fun _ _ => .error "could not convert")
        (Value.str "abc") TypeOptions.NUMBER).map Prod.fst = ["error"])
      ∧ "error" ∉ UniversalTypeConverterBlock.outputFields := by
  exact ⟨rfl, by simp [UniversalTypeConverterBlock.outputFields]⟩

/-- Overwriting every entry keyed `k` with `(k, v)` rewrites lookups for
`k` and leaves every other lookup alone. -/
theorem find?_overwrite (d : List (Key × Value)) (k : Key) (v : Value)
    (k' : Key) :
    (d.map (fun p => if p.1 == k then (k, v) else p)).find?
        (fun p => p.1 == k')
      = if k' = k then (d.find? (fun p => p.1 == k)).map (fun _ => (k, v))
        else d.find? (fun p => p.1 == k') := by
  induction d with
  | nil => by_cases h : k' = k <;> simp [h]
  | cons p ps ih =>
    simp only [List.map_cons, List.find?_cons]
    by_cases hp : p.1 = k <;> by_cases hq : k' = k <;>
      by_cases hpk : p.1 = k' <;>
      simp_all [List.find?_cons, beq_iff_eq, beq_eq_false_iff_ne]
    · rw [beq_eq_false_iff_ne.mpr hpk]
    · rw [beq_eq_false_iff_ne.mpr hp]

/-- Python `d[k] = v` (as `dictSet`): the lookup for `k` becomes `v`, every
other lookup is unchanged. -/
theorem dictLookup_dictSet (d : List (Key × Value)) (k : Key) (v : Value)
    (k' : Key) :
    dictLookup (AddToDictionaryBlock.dictSet d k v) k'
      = if k' = k then some v else dictLookup d k' := by
  unfold AddToDictionaryBlock.dictSet
  by_cases hany : (d.any fun p => p.1 == k) = true
  · rw [if_pos hany]
    unfold dictLookup
    rw [find?_overwrite]
    by_cases hq : k' = k
    · subst hq
      rw [if_pos rfl, if_pos rfl]
      obtain ⟨x, hx, hpx⟩ := List.any_eq_true.mp hany
      cases hf : d.find? fun p => p.1 == k' with
      | none => exact absurd hpx (List.find?_eq_none.mp hf x hx)
      | some p => simp
    · rw [if_neg hq, if_neg hq]
  · rw [if_neg hany]
    unfold dictLookup
    rw [List.find?_append]
    have hnone : (d.find? fun p => p.1 == k) = none := by
      rw [List.find?_eq_none]
      intro x hx hpx
      exact hany (List.any_eq_true.mpr ⟨x, hx, hpx⟩)
    by_cases hq : k' = k
    · subst hq
      rw [hnone]
      simp [List.find?_cons, Option.or]
    · have h1 : (List.find? (fun p => p.1 == k') [(k, v)]) = none := by
        rw [List.find?_cons]
        have hb : (k == k') = false := beq_eq_false_iff_ne.mpr fun hh => hq hh.symm
        simp [hb]
      rw [h1, if_neg hq]
      cases d.find? fun p => p.1 == k' <;> simp [Option.or]

/-- Folding a batch of `dictSet`s: the final lookup is the last batch entry
for that key when one exists, and the base lookup otherwise. -/
theorem dictLookup_foldl (es base : List (Key × Value)) (k' : Key) :
    dictLookup
        (es.foldl (fun acc p => AddToDictionaryBlock.dictSet acc p.1 p.2) base)
        k'
      = (match es.reverse.find? (fun p => p.1 == k') with
         | some p => some p.2
         | none => dictLookup base k') := by
  induction es generalizing base with
  | nil => simp
  | cons e es ih =>
    simp only [List.foldl_cons, ih, List.reverse_cons, List.find?_append]
    cases hf : es.reverse.find? (fun p => p.1 == k') with
    | some p => simp [Option.or]
    | none =>
      have hset := dictLookup_dictSet base e.1 e.2 k'
      by_cases hq : k' = e.1
      · subst hq
        simp [Option.or, List.find?_cons, hset]
      · have hb : (e.1 == k') = false := beq_eq_false_iff_ne.mpr fun hh => hq hh.symm
        simp [Option.or, List.find?_cons, hb, hset, hq]

/-- C6: `AddToDictionaryBlock.run` emits exactly one `updated_dictionary`
event equal to the spec's merge — a copy of `dictionary` with the singular
pair set exactly when `value` is non-null and `key` non-empty, then every
batch entry applied in order — and key collisions resolve last-write-wins
with batch entries after the singular pair (never an error): the final
binding of any key `q` is the last `entries` pair for `q` when one exists,
else the singular `value` when it applies and `q` is the singular key,
else the original binding. -/
theorem addToDictionary_merge (d : List (Key × Value)) (k : String)
    (v : Value) (es : List (Key × Value)) (q : Key) :
    AddToDictionaryBlock.run d k v es
        = [("updated_dictionary", Value.dict (DictionaryMergeSpec.merged d k v es))]
      ∧ dictLookup (DictionaryMergeSpec.merged d k v es) q
          = (match es.reverse.find? (fun p => p.1 == q) with
             | some p => some p.2
             | none =>
               if (!v.isNull && k != "") = true ∧ q = Key.str k then some v
               else dictLookup d q) := by
  refine ⟨rfl, ?_⟩
  unfold DictionaryMergeSpec.merged
  rw [dictLookup_foldl]
  cases hf : es.reverse.find? (fun p => p.1 == q) with
  | some p => rfl
  | none =>
    by_cases hc : (!v.isNull && k != "") = true
    · rw [if_pos hc, dictLookup_dictSet]
      by_cases hq : q = Key.str k
      · rw [if_pos hq, if_pos ⟨hc, hq⟩]
      · rw [if_neg hq, if_neg (fun hh => hq hh.2)]
    · rw [if_neg hc, if_neg (fun hh => hc hh.1)]

/-- C5 counterexample: with `values = []` and `max_size` absent the
effective step `len(values)` is 0, `range(0, 0, 0)` raises, and the caught
failure is reported on `error` — not as a single empty `list` event. -/
theorem createList_empty_refuted :
    CreateListBlock.run [] none = [("error", Value.str CreateListBlock.errMsg)]
      ∧ ("error" : String) ≠ "list" := ⟨rfl, by decide⟩

/-- The `for i in range(0, len, k)` slicing loop produces exactly the
consecutive chunks of length `k` (strong induction on the list length). -/
theorem rangeChunks_aux (kn : Nat) (hk : 0 < kn) :
    ∀ (n : Nat) (l : List Value), l.length ≤ n →
      (List.range ((l.length + kn - 1) / kn)).map
          (fun j => (l.drop (j * kn)).take kn)
        = ListCreateSpec.chunks kn l := by
  intro n
  induction n with
  | zero =>
    intro l hl
    have hnil : l = [] := List.eq_nil_of_length_eq_zero (Nat.le_zero.mp hl)
    subst hnil
    rw [ListCreateSpec.chunks]
    rw [show ([] : List Value).length + kn - 1 = kn - 1 by
          simp only [List.length_nil]; omega]
    rw [Nat.div_eq_of_lt (by omega)]
    rfl
  | succ n ih =>
    intro l hl
    match l with
    | [] =>
      rw [ListCreateSpec.chunks]
      rw [show ([] : List Value).length + kn - 1 = kn - 1 by
            simp only [List.length_nil]; omega]
      rw [Nat.div_eq_of_lt (by omega)]
      rfl
    | x :: xs =>
      obtain ⟨m, rfl⟩ : ∃ m, kn = m + 1 := ⟨kn - 1, by omega⟩
      simp only [List.length_cons] at hl
      have hcount : ((x :: xs).length + (m + 1) - 1) / (m + 1)
          = ((xs.drop m).length + (m + 1) - 1) / (m + 1) + 1 := by
        rw [show (x :: xs).length + (m + 1) - 1 = xs.length + (m + 1) by
              simp only [List.length_cons]; omega]
        rw [Nat.add_div_right _ (by omega)]
        congr 1
        rw [List.length_drop]
        by_cases hle : xs.length ≤ m
        · rw [Nat.div_eq_of_lt (by omega), Nat.div_eq_of_lt (by omega)]
        · congr 1
          omega
      rw [hcount, List.range_succ_eq_map, List.map_cons, List.map_map]
      rw [ListCreateSpec.chunks]
      congr 1
      · simp
      · have hfun :
            ((fun j => (List.take (m + 1) (List.drop (j * (m + 1)) (x :: xs)))) ∘ Nat.succ)
              = fun j => List.take (m + 1) (List.drop (j * (m + 1)) (xs.drop m)) := by
          funext j
          simp only [Function.comp_apply]
          rw [show xs.drop m = (x :: xs).drop (m + 1) from (List.drop_succ_cons).symm]
          rw [List.drop_drop]
          congr 2
          simp only [Nat.succ_eq_add_one]
          ring
        rw [hfun]
        exact ih (xs.drop m) (by rw [List.length_drop]; omega)

/-- C5 (amended): when `max_size` is a positive integer, `CreateListBlock`
emits one `list` event per consecutive chunk of that length (last chunk
possibly shorter), in order; when `max_size` is absent it emits the whole
`values` as a single `list` event when `values` is non-empty, and — because
the effective chunk size is then 0 and `range` rejects a zero step — a
single `error` event when `values` is the empty list. -/
theorem createList_run (values : List Value) :
    (∀ k : Int, 0 < k →
        CreateListBlock.run values (some k)
          = (ListCreateSpec.chunks k.toNat values).map
              (fun c => ("list", Value.list c)))
      ∧ CreateListBlock.run values none
          = (if values.isEmpty then
               [("error", Value.str CreateListBlock.errMsg)]
             else [("list", Value.list values)]) := by
  constructor
  · intro k hk
    have he : CreateListBlock.effSize values (some k) = k := by
      show (if k = 0 then ((values.length : Int)) else k) = k
      rw [if_neg (show ¬ (k = 0) by omega)]
    unfold CreateListBlock.run
    rw [he]
    rw [if_neg (show ¬ (k = 0) by omega), if_neg (show ¬ (k < 0) by omega)]
    rw [← rangeChunks_aux k.toNat (by omega) values.length values (le_refl _)]
    rw [List.map_map]
    rfl
  · by_cases hv : values.isEmpty
    · have hnil : values = [] := List.isEmpty_iff.mp hv
      subst hnil
      rfl
    · have hlen : values.length ≠ 0 := fun h =>
        hv (List.isEmpty_iff.mpr (List.eq_nil_of_length_eq_zero h))
      have he : CreateListBlock.effSize values none = (values.length : Int) := rfl
      unfold CreateListBlock.run
      rw [he]
      rw [if_neg (show ¬ ((values.length : Int) = 0) by omega)]
      rw [if_neg (show ¬ ((values.length : Int) < 0) by omega)]
      rw [show ((values.length : Int)).toNat = values.length from Int.toNat_ofNat _]
      rw [show (values.length + values.length - 1) / values.length = 1 from
            Nat.div_eq_of_lt_le (by omega) (by omega)]
      rw [if_neg hv]
      simp [List.range_succ, List.take_length]

/-- Witness for the amended C5 theorem at the spec's chunking example
`values=[1,2,3,4,5]`, `max_size=2`. -/
theorem createList_run_witness :
    (0 : Int) < 2
      ∧ CreateListBlock.run
            [Value.int 1, Value.int 2, Value.int 3, Value.int 4, Value.int 5]
            (some 2)
          = (ListCreateSpec.chunks (2 : Int).toNat
              [Value.int 1, Value.int 2, Value.int 3, Value.int 4, Value.int 5]).map
              (fun c => ("list", Value.list c))
      ∧ CreateListBlock.run
            [Value.int 1, Value.int 2, Value.int 3, Value.int 4, Value.int 5]
            none
          = (if ([Value.int 1, Value.int 2, Value.int 3, Value.int 4,
                  Value.int 5] : List Value).isEmpty then
               [("error", Value.str CreateListBlock.errMsg)]
             else
               [("list", Value.list [Value.int 1, Value.int 2, Value.int 3,
                  Value.int 4, Value.int 5])]) :=
  ⟨by decide,
   (createList_run _).1 2 (by decide),
   (createList_run _).2⟩

/-- Allocation leaves every live cell unchanged. -/
theorem Heap.getElem?_alloc (h : Heap) (c : Container) (b : Nat)
    (hb : b < h.length) : (h.alloc c).1[b]? = h[b]? := by
  show (h ++ [c])[b]? = h[b]?
  rw [List.getElem?_append]
  rw [if_pos hb]

/-- Writing a dictionary through one address leaves every other address
unchanged. -/
theorem Heap.getElem?_writeDict_ne (h : Heap) (a : Nat)
    (ps : List (Key × Value)) (b : Nat) (hne : a ≠ b) :
    (h.writeDict a ps)[b]? = h[b]? :=
  List.getElem?_set_ne hne

/-- Writing a list through one address leaves every other address
unchanged. -/
theorem Heap.getElem?_writeList_ne (h : Heap) (a : Nat) (xs : List Value)
    (b : Nat) (hne : a ≠ b) :
    (h.writeList a xs)[b]? = h[b]? :=
  List.getElem?_set_ne hne

/-- The batch-entry fold of the merge block writes only through the copy's
address. -/
theorem getElem?_foldl_writeDict (es : List (Key × Value)) (a b : Nat)
    (hne : a ≠ b) :
    ∀ hh : Heap,
      (es.foldl
          (fun s p =>
            s.writeDict a (AddToDictionaryBlock.dictSet (s.dictAt a) p.1 p.2))
          hh)[b]?
        = hh[b]? := by
  induction es with
  | nil => intro hh; rfl
  | cons e es ih =>
    intro hh
    rw [List.foldl_cons, ih]
    exact Heap.getElem?_writeDict_ne _ _ _ _ hne

/-- Frame property of the heap-level merge: every live cell is untouched
and the result address is the first fresh one. -/
theorem addToDictionary_runH_frame (h : Heap) (dictA : Nat) (key : String)
    (value : Value) (entriesA : Nat) (b : Nat) (hb : b < h.length) :
    (AddToDictionaryBlock.runH h dictA key value entriesA).1[b]? = h[b]?
      ∧ (AddToDictionaryBlock.runH h dictA key value entriesA).2 = h.length := by
  have hne : h.length ≠ b := by omega
  constructor
  · simp only [AddToDictionaryBlock.runH, Heap.alloc]
    rw [getElem?_foldl_writeDict _ _ _ hne]
    by_cases hc : (!value.isNull && key != "") = true
    · rw [if_pos hc]
      rw [Heap.getElem?_writeDict_ne _ _ _ _ hne]
      rw [List.getElem?_append]
      rw [if_pos hb]
    · rw [if_neg hc]
      rw [List.getElem?_append]
      rw [if_pos hb]
  · rfl

/-- Frame property of the heap-level insert: every live cell is untouched
and the result address is fresh (at or above the old heap length). -/
theorem addToList_runH_frame (g : Heap) (listA : Nat) (entry : Value)
    (entriesB : Nat) (pos : Option Int) (b : Nat) (hb : b < g.length) :
    (AddToListBlock.runH g listA entry entriesB pos).1[b]? = g[b]?
      ∧ g.length ≤ (AddToListBlock.runH g listA entry entriesB pos).2 := by
  have hne : g.length ≠ b := by omega
  simp only [AddToListBlock.runH, Heap.alloc]
  by_cases hc : pyTruthy entry = true
  all_goals
    first
      | rw [if_pos hc]
      | rw [if_neg hc]
  all_goals cases pos with
  | none =>
    constructor
    · rw [Heap.getElem?_writeList_ne]
      · rw [List.getElem?_append]
        rw [if_pos (by simp [Heap.writeList, List.length_set, List.length_append]; omega)]
        first
          | (rw [Heap.getElem?_writeList_ne _ _ _ _ hne,
                 List.getElem?_append, if_pos hb])
          | (rw [List.getElem?_append, if_pos hb])
      · simp [Heap.writeList, List.length_set, List.length_append]
        omega
    · simp [Heap.writeList, List.length_set, List.length_append]
  | some p =>
    constructor
    · rw [List.getElem?_append]
      rw [if_pos (by simp [Heap.writeList, List.length_set, List.length_append]; omega)]
      rw [List.getElem?_append]
      rw [if_pos (by simp [Heap.writeList, List.length_set, List.length_append]; omega)]
      first
        | (rw [Heap.getElem?_writeList_ne _ _ _ _ hne,
               List.getElem?_append, if_pos hb])
        | (rw [List.getElem?_append, if_pos hb])
    · simp [Heap.writeList, List.length_set, List.length_append]

/-- C7: copy-before-mutate for both mutating blocks over the heap model —
after a run of the merge block the caller's `dictionary` and `entries`
cells are unchanged, after a run of the insert block the caller's `list`
and `entries` cells are unchanged, and each emitted result lives at a
fresh address distinct from every input address (no aliasing). -/
theorem copy_before_mutate
    (h : Heap) (dictA entriesA : Nat) (key : String) (value : Value)
    (g : Heap) (listA entriesB : Nat) (entry : Value) (pos : Option Int)
    (hd : dictA < h.length) (he : entriesA < h.length)
    (hl : listA < g.length) (hb : entriesB < g.length) :
    ((AddToDictionaryBlock.runH h dictA key value entriesA).1[dictA]? = h[dictA]?
      ∧ (AddToDictionaryBlock.runH h dictA key value entriesA).1[entriesA]?
          = h[entriesA]?
      ∧ (AddToDictionaryBlock.runH h dictA key value entriesA).2 ≠ dictA
      ∧ (AddToDictionaryBlock.runH h dictA key value entriesA).2 ≠ entriesA)
    ∧ ((AddToListBlock.runH g listA entry entriesB pos).1[listA]? = g[listA]?
      ∧ (AddToListBlock.runH g listA entry entriesB pos).1[entriesB]?
          = g[entriesB]?
      ∧ (AddToListBlock.runH g listA entry entriesB pos).2 ≠ listA
      ∧ (AddToListBlock.runH g listA entry entriesB pos).2 ≠ entriesB) := by
  obtain ⟨hd1, hd2⟩ := addToDictionary_runH_frame h dictA key value entriesA dictA hd
  obtain ⟨he1, _⟩ := addToDictionary_runH_frame h dictA key value entriesA entriesA he
  obtain ⟨hl1, hl2⟩ := addToList_runH_frame g listA entry entriesB pos listA hl
  obtain ⟨hb1, _⟩ := addToList_runH_frame g listA entry entriesB pos entriesB hb
  exact ⟨⟨hd1, he1, by omega, by omega⟩, ⟨hl1, hb1, by omega, by omega⟩⟩

/-- Witness for C7 on concrete two-cell heaps. -/
theorem copy_before_mutate_witness :
    (0 < ([Container.dict [(Key.str "a", Value.int 1)],
           Container.dict [(Key.str "b", Value.int 2)]] : Heap).length)
      ∧ (1 < ([Container.dict [(Key.str "a", Value.int 1)],
               Container.dict [(Key.str "b", Value.int 2)]] : Heap).length)
      ∧ (0 < ([Container.list [Value.int 1],
               Container.list [Value.int 2]] : Heap).length)
      ∧ (1 < ([Container.list [Value.int 1],
               Container.list [Value.int 2]] : Heap).length)
      ∧ (((AddToDictionaryBlock.runH
              [Container.dict [(Key.str "a", Value.int 1)],
               Container.dict [(Key.str "b", Value.int 2)]]
              0 "k" (Value.int 3) 1).1[0]?
            = ([Container.dict [(Key.str "a", Value.int 1)],
                Container.dict [(Key.str "b", Value.int 2)]] : Heap)[0]?
          ∧ (AddToDictionaryBlock.runH
              [Container.dict [(Key.str "a", Value.int 1)],
               Container.dict [(Key.str "b", Value.int 2)]]
              0 "k" (Value.int 3) 1).1[1]?
            = ([Container.dict [(Key.str "a", Value.int 1)],
                Container.dict [(Key.str "b", Value.int 2)]] : Heap)[1]?
          ∧ (AddToDictionaryBlock.runH
              [Container.dict [(Key.str "a", Value.int 1)],
               Container.dict [(Key.str "b", Value.int 2)]]
              0 "k" (Value.int 3) 1).2 ≠ 0
          ∧ (AddToDictionaryBlock.runH
              [Container.dict [(Key.str "a", Value.int 1)],
               Container.dict [(Key.str "b", Value.int 2)]]
              0 "k" (Value.int 3) 1).2 ≠ 1)
        ∧ ((AddToListBlock.runH
              [Container.list [Value.int 1], Container.list [Value.int 2]]
              0 (Value.str "e") 1 (some 1)).1[0]?
            = ([Container.list [Value.int 1],
                Container.list [Value.int 2]] : Heap)[0]?
          ∧ (AddToListBlock.runH
              [Container.list [Value.int 1], Container.list [Value.int 2]]
              0 (Value.str "e") 1 (some 1)).1[1]?
            = ([Container.list [Value.int 1],
                Container.list [Value.int 2]] : Heap)[1]?
          ∧ (AddToListBlock.runH
              [Container.list [Value.int 1], Container.list [Value.int 2]]
              0 (Value.str "e") 1 (some 1)).2 ≠ 0
          ∧ (AddToListBlock.runH
              [Container.list [Value.int 1], Container.list [Value.int 2]]
              0 (Value.str "e") 1 (some 1)).2 ≠ 1)) :=
  ⟨by decide, by decide, by decide, by decide,
   copy_before_mutate _ 0 1 "k" (Value.int 3) _ 0 1 (Value.str "e") (some 1)
     (by decide) (by decide) (by decide) (by decide)⟩

/-- Membership `key in d` agrees with "the lookup succeeds". -/
theorem dictContains_eq_isSome (ps : List (Key × Value)) (k : Key) :
    dictContains ps k = (ps.find? (fun p => p.1 == k)).isSome := by
  induction ps with
  | nil => rfl
  | cons p ps ih =>
    unfold dictContains at ih ⊢
    rw [List.any_cons, List.find?_cons]
    cases h : p.1 == k <;> simp [h, ih]

/-- The code's dict-branch condition agrees with the spec's rule-1
applicability. -/
theorem condDict_eq_isSome (v : Value) (k : Key) :
    FindInDictionaryBlock.condDict v k
      = (DictionaryLookupSpec.ruleMapping v k).isSome := by
  cases v <;>
    simp [FindInDictionaryBlock.condDict, DictionaryLookupSpec.ruleMapping,
      dictContains_eq_isSome]

/-- The code's attribute comprehension agrees with the spec-side
`filterMap` formulation. -/
theorem attrProjection_eq (ks : String) (xs : List Value) :
    FindInDictionaryBlock.attrProjection ks xs
      = DictionaryLookupSpec.attrProject ks xs := by
  induction xs with
  | nil => rfl
  | cons x xs ih =>
    unfold FindInDictionaryBlock.attrProjection
      DictionaryLookupSpec.attrProject at ih ⊢
    rw [List.filter_cons, List.filterMap_cons]
    cases h : hasattrV x ks <;> simp [h, ih]

/-- The code's projection comprehension agrees with the spec-side
`mapM`/`filterMap` formulation. -/
theorem dictProjection_eq (ks : String) (xs : List Value) :
    FindInDictionaryBlock.dictProjection ks xs
      = DictionaryLookupSpec.projection ks xs := by
  induction xs with
  | nil => rfl
  | cons item rest ih =>
    simp only [FindInDictionaryBlock.dictProjection]
    unfold DictionaryLookupSpec.projection at ih ⊢
    rw [List.mapM_cons]
    cases hpi : pyIn (Key.str ks) item with
    | error e =>
      simp [DictionaryLookupSpec.pick, hpi, Bind.bind, Except.bind]
    | ok b =>
      cases b with
      | false =>
        rw [ih]
        cases hm : rest.mapM (DictionaryLookupSpec.pick ks) with
        | error e =>
          simp [DictionaryLookupSpec.pick, hpi, hm, Bind.bind, Except.bind,
            Pure.pure, Except.pure]
        | ok picked =>
          simp [DictionaryLookupSpec.pick, hpi, hm, Bind.bind, Except.bind,
            Pure.pure, Except.pure, List.filterMap_cons]
      | true =>
        cases hg : pyGetItem item ks with
        | error e =>
          simp [DictionaryLookupSpec.pick, hpi, hg, Bind.bind, Except.bind]
        | ok v =>
          rw [ih]
          cases hm : rest.mapM (DictionaryLookupSpec.pick ks) with
          | error e =>
            simp [DictionaryLookupSpec.pick, hpi, hg, hm, Bind.bind,
              Except.bind, Pure.pure, Except.pure]
          | ok picked =>
            simp [DictionaryLookupSpec.pick, hpi, hg, hm, Bind.bind,
              Except.bind, Pure.pure, Except.pure, List.filterMap_cons]

/-- Core equivalence for the dictionary-lookup block: the `if`/`elif`
chain of `runObj` resolves exactly as the spec's first-match-wins priority
rules (with the amended projection behaviour). -/
theorem runObj_eq_resolve (input obj : Value) (key : Key) :
    FindInDictionaryBlock.runObj input obj key
      = DictionaryLookupSpec.resolve input obj key := by
  unfold FindInDictionaryBlock.runObj DictionaryLookupSpec.resolve
  cases obj with
  | dict ps =>
    rw [show FindInDictionaryBlock.condDict (Value.dict ps) key
          = (DictionaryLookupSpec.ruleMapping (Value.dict ps) key).isSome from
        condDict_eq_isSome _ _]
    cases hf : DictionaryLookupSpec.ruleMapping (Value.dict ps) key with
    | some v =>
      simp only [DictionaryLookupSpec.ruleMapping] at hf
      simp [FindInDictionaryBlock.dictItemV, dictGetD, hf]
    | none =>
      simp only [DictionaryLookupSpec.ruleMapping] at hf
      cases key <;>
        simp [FindInDictionaryBlock.condListInt,
          DictionaryLookupSpec.ruleSequenceIndex,
          DictionaryLookupSpec.ruleSequenceText,
          DictionaryLookupSpec.ruleAttribute, hasattrV]
  | list xs =>
    cases key with
    | int n =>
      by_cases h0 : (0 : Int) ≤ n
      · by_cases h1 : n < (xs.length : Int)
        · have hlt : n.toNat < xs.length := by omega
          simp [FindInDictionaryBlock.condDict,
            FindInDictionaryBlock.condListInt,
            FindInDictionaryBlock.listItemV,
            List.getD_eq_getElem?_getD,
            DictionaryLookupSpec.ruleMapping,
            DictionaryLookupSpec.ruleSequenceIndex, h0, h1,
            List.getElem?_eq_getElem hlt]
        · have hnone : xs[n.toNat]? = none :=
            List.getElem?_eq_none (by omega)
          simp [FindInDictionaryBlock.condDict,
            FindInDictionaryBlock.condListInt,
            DictionaryLookupSpec.ruleMapping,
            DictionaryLookupSpec.ruleSequenceIndex,
            DictionaryLookupSpec.ruleSequenceText,
            DictionaryLookupSpec.ruleAttribute, h0, h1, hnone]
      · simp [FindInDictionaryBlock.condDict,
          FindInDictionaryBlock.condListInt,
          DictionaryLookupSpec.ruleMapping,
          DictionaryLookupSpec.ruleSequenceIndex,
          DictionaryLookupSpec.ruleSequenceText,
          DictionaryLookupSpec.ruleAttribute, h0]
    | str ks =>
      cases xs with
      | nil =>
        simp [FindInDictionaryBlock.condDict,
          FindInDictionaryBlock.condListInt,
          FindInDictionaryBlock.listStrLookup,
          DictionaryLookupSpec.ruleMapping,
          DictionaryLookupSpec.ruleSequenceIndex,
          DictionaryLookupSpec.ruleSequenceText]
      | cons first rest =>
        rw [show FindInDictionaryBlock.condDict (Value.list (first :: rest))
              (Key.str ks) = false from rfl]
        rw [show FindInDictionaryBlock.condListInt (Value.list (first :: rest))
              (Key.str ks) = false from rfl]
        simp only [Bool.false_eq_true, if_false]
        rw [show DictionaryLookupSpec.ruleMapping (Value.list (first :: rest))
              (Key.str ks) = none from rfl]
        rw [show DictionaryLookupSpec.ruleSequenceIndex
              (Value.list (first :: rest)) (Key.str ks) = none from rfl]
        unfold FindInDictionaryBlock.listStrLookup
          DictionaryLookupSpec.ruleSequenceText
        rw [show ((first :: rest).isEmpty) = false from rfl]
        simp only [Bool.false_eq_true, if_false]
        rw [show ((first :: rest).headD Value.null) = first from rfl]
        rw [condDict_eq_isSome first (Key.str ks)]
        rw [dictProjection_eq, attrProjection_eq]
        by_cases hr :
            (DictionaryLookupSpec.ruleMapping first (Key.str ks)).isSome = true
        · rw [if_pos hr, if_pos hr]
          cases hp : DictionaryLookupSpec.projection ks (first :: rest) with
          | error e => simp [Except.map]
          | ok vs => simp [Except.map]
        · rw [if_neg hr, if_neg hr]
  | null =>
    cases key <;>
      simp [FindInDictionaryBlock.condDict, FindInDictionaryBlock.condListInt,
        DictionaryLookupSpec.ruleMapping, DictionaryLookupSpec.ruleSequenceIndex,
        DictionaryLookupSpec.ruleSequenceText, DictionaryLookupSpec.ruleAttribute,
        hasattrV]
  | bool b =>
    cases key <;>
      simp [FindInDictionaryBlock.condDict, FindInDictionaryBlock.condListInt,
        DictionaryLookupSpec.ruleMapping, DictionaryLookupSpec.ruleSequenceIndex,
        DictionaryLookupSpec.ruleSequenceText, DictionaryLookupSpec.ruleAttribute,
        hasattrV]
  | int n =>
    cases key <;>
      simp [FindInDictionaryBlock.condDict, FindInDictionaryBlock.condListInt,
        DictionaryLookupSpec.ruleMapping, DictionaryLookupSpec.ruleSequenceIndex,
        DictionaryLookupSpec.ruleSequenceText, DictionaryLookupSpec.ruleAttribute,
        hasattrV]
  | str s =>
    cases key <;>
      simp [FindInDictionaryBlock.condDict, FindInDictionaryBlock.condListInt,
        DictionaryLookupSpec.ruleMapping, DictionaryLookupSpec.ruleSequenceIndex,
        DictionaryLookupSpec.ruleSequenceText, DictionaryLookupSpec.ruleAttribute,
        hasattrV]
  | obj attrs =>
    cases key with
    | int n =>
      simp [FindInDictionaryBlock.condDict, FindInDictionaryBlock.condListInt,
        DictionaryLookupSpec.ruleMapping, DictionaryLookupSpec.ruleSequenceIndex,
        DictionaryLookupSpec.ruleSequenceText, DictionaryLookupSpec.ruleAttribute]
    | str ks =>
      by_cases h : hasattrV (Value.obj attrs) ks = true <;>
        simp [FindInDictionaryBlock.condDict, FindInDictionaryBlock.condListInt,
          DictionaryLookupSpec.ruleMapping, DictionaryLookupSpec.ruleSequenceIndex,
          DictionaryLookupSpec.ruleSequenceText, DictionaryLookupSpec.ruleAttribute,
          h]

/-- C1 counterexample: `input = [{"k1": "v1"}, 2]`, `key = "k1"`.  The
first element is a mapping containing the key, so the code runs the
projection comprehension; the membership test `"k1" in 2` raises
`TypeError` (an `int` is not iterable), which propagates — the routine
does not "skip" the element lacking the key, contradicting the claim's
required `output = ["v1"]`. -/
theorem findInDictionary_projection_refuted :
    FindInDictionaryBlock.run (fun s => .error s)
        (Value.list [Value.dict [(Key.str "k1", Value.str "v1")], Value.int 2])
        (Key.str "k1")
      = Except.error "TypeError"
      ∧ (Except.error "TypeError" : Except String (List Event))
          ≠ Except.ok [("output", Value.list [Value.str "v1"])] := by
  exact ⟨rfl, by simp⟩

/-- C1 (amended): for every parser, input and key, the dictionary-lookup
routine resolves exactly by the spec's first-match-wins priority rules —
a mapping containing the key yields its value; a sequence with an
in-bounds non-negative integer key yields that element; a sequence with a
textual key yields the empty sequence when empty, the projection when the
first element is a mapping containing the key (where each element is
tested for Python membership of the key: mappings containing it
contribute their value, elements not containing it are skipped, and a
membership test or subscription on a non-mapping element that is
untestable or contains the key raises a propagating `TypeError`), and the
attribute projection otherwise; an arbitrary object exposing the
attribute yields it; when no rule applies the routine emits `missing`
carrying the original unparsed input. -/
theorem findInDictionary_priority (loads : String → Except String Value)
    (input : Value) (key : Key) :
    FindInDictionaryBlock.run loads input key
      = DictionaryLookupSpec.run loads input key := by
  unfold FindInDictionaryBlock.run DictionaryLookupSpec.run
  cases FindInDictionaryBlock.parsedObj loads input with
  | error e => rfl
  | ok obj => exact runObj_eq_resolve input obj key

/-- C10: a textual input that fails to parse propagates the parse failure
(`.error`, hence no events at all — in particular no `missing` event);
and whenever a run does emit `missing`, the input was either non-textual
or parsed successfully. -/
theorem findInDictionary_parse_failure
    (loads : String → Except String Value) (key : Key) :
    (∀ s e, loads s = .error e →
        FindInDictionaryBlock.run loads (Value.str s) key = .error e)
      ∧ (∀ input evts, FindInDictionaryBlock.run loads input key = .ok evts →
          (∃ v, ("missing", v) ∈ evts) →
          ∀ s, input = Value.str s → ∃ v, loads s = .ok v) := by
  constructor
  · intro s e hs
    unfold FindInDictionaryBlock.run
    rw [show FindInDictionaryBlock.parsedObj loads (Value.str s)
          = loads s from rfl, hs]
  · intro input evts hrun _ s hinput
    subst hinput
    unfold FindInDictionaryBlock.run at hrun
    rw [show FindInDictionaryBlock.parsedObj loads (Value.str s)
          = loads s from rfl] at hrun
    cases hl : loads s with
    | ok v => exact ⟨v, rfl⟩
    | error e => rw [hl] at hrun; exact absurd hrun (by simp)

/-- Witness for C10: a parser that rejects everything makes the run
propagate the error on a textual input, and an integer input reaches
`missing` without consulting the parser. -/
theorem findInDictionary_parse_failure_witness :
    ((fun s => (Except.error s : Except String Value)) "oops"
        = Except.error "oops")
      ∧ FindInDictionaryBlock.run (fun s => .error s) (Value.str "oops")
          (Key.str "k") = Except.error "oops"
      ∧ FindInDictionaryBlock.run (fun s => .error s) (Value.int 7)
          (Key.str "k") = Except.ok [("missing", Value.int 7)]
      ∧ (∃ v, ("missing", v) ∈
          ([("missing", Value.int 7)] : List Event)) := by
  refine ⟨rfl, ?_, rfl, ⟨Value.int 7, by simp⟩⟩
  exact (findInDictionary_parse_failure (fun s => .error s) (Key.str "k")).1
    "oops" "oops" rfl
